import Mathlib

/-!
# Verification of the dyslexic reader (`dyslexic_reader.py`)

Shallow embedding of the program's data model and operations:

* Python string trimming (`str.rstrip` / `str.strip`) used by `start_reading`;
* the Tk text widget as seen by `process_gui_events`: a character list, a set
  of highlighted character positions (the `highlight` tag), and the index last
  scrolled into view (`see`); Tk character indices clamp at the end of the
  widget content;
* the TTS worker loop `tts_worker`: a queue of tasks (`None` is the shutdown
  sentinel), a count of connected `started-word` callbacks, and per-task
  engine behaviour (which word boundaries the engine reports, whether
  `say`/`runAndWait` raises, whether `disconnect` raises);
* `start_reading` and `on_closing`.

All definitions are executable; theorems about them follow at the end.
-/

namespace DyslexicReader

/-! ## Python string helpers -/

/-- Python's default whitespace set for `str.strip` / `str.rstrip`: the
characters on which `str.isspace()` holds — ASCII whitespace, the separator
controls `\x1c`–`\x1f`, NEL `\x85`, NBSP `\xa0`, and the Unicode space and
line/paragraph separators. -/
def pyIsSpace (c : Char) : Bool :=
  c.val = 0x09 || c.val = 0x0a || c.val = 0x0b || c.val = 0x0c || c.val = 0x0d ||
  c.val = 0x1c || c.val = 0x1d || c.val = 0x1e || c.val = 0x1f || c.val = 0x20 ||
  c.val = 0x85 || c.val = 0xa0 || c.val = 0x1680 ||
  (0x2000 ≤ c.val && c.val ≤ 0x200a) ||
  c.val = 0x2028 || c.val = 0x2029 || c.val = 0x202f ||
  c.val = 0x205f || c.val = 0x3000

/-- Python `str.rstrip()` on a character list: drop trailing whitespace. -/
def pyRstrip (l : List Char) : List Char :=
  (l.reverse.dropWhile pyIsSpace).reverse

/-- Python `str.strip()` on a character list: drop leading and trailing
whitespace. -/
def pyStrip (l : List Char) : List Char :=
  ((l.dropWhile pyIsSpace).reverse.dropWhile pyIsSpace).reverse

/-! ## The text widget (`text_area`) as used by `process_gui_events`

`content` is the full widget text (Tk always keeps a trailing newline).
`highlight` is the set of character positions carrying the `highlight` tag:
Tk tags are per-character, so a tag state is a set of positions, and
`tag_add s e` adds the half-open range `[s, e)`.  A Tk index
`"1.0 + n chars"` clamps at the end of the content rather than raising. -/

structure TextWidget where
  content : List Char
  highlight : Finset ℕ
  viewIndex : ℕ
deriving DecidableEq

/-- Resolve the Tk index `"1.0 + n chars"`: clamps at the end of content. -/
def resolveChars (w : TextWidget) (n : ℕ) : ℕ :=
  min n w.content.length

/-- `text_area.tag_remove(HIGHLIGHT_TAG, "1.0", tk.END)`. -/
def tagRemoveAll (w : TextWidget) : TextWidget :=
  { w with highlight := ∅ }

/-- `text_area.tag_add(HIGHLIGHT_TAG, start, end)` for resolved indices. -/
def tagAdd (w : TextWidget) (s e : ℕ) : TextWidget :=
  { w with highlight := w.highlight ∪ Finset.Ico s e }

/-- `text_area.see(start)` for a resolved index. -/
def seeIndex (w : TextWidget) (s : ℕ) : TextWidget :=
  { w with viewIndex := s }

/-- Handling of one `('word', location, length)` event inside
`process_gui_events`: skip if `location < 0`; otherwise remove the old
highlight everywhere, add the tag on
`"1.0 + location chars" .. "+ length chars"` (both ends clamped by Tk),
and scroll the start into view. -/
def processWord (w : TextWidget) (location : ℤ) (length : ℕ) : TextWidget :=
  if location < 0 then w
  else
    let s := resolveChars w location.toNat
    let e := resolveChars w (s + length)
    seeIndex (tagAdd (tagRemoveAll w) s e) s

/-- One polling pass draining a list of queued word events in FIFO order;
also returns the events in the order they were handled. -/
def drainAll (w : TextWidget) : List (ℤ × ℕ) → TextWidget × List (ℤ × ℕ)
  | [] => (w, [])
  | e :: rest =>
    let r := drainAll (processWord w e.1 e.2) rest
    (r.1, e :: r.2)

/-- The highlight tag covers a single (possibly empty) contiguous span. -/
def isSpanSet (s : Finset ℕ) : Prop :=
  ∃ a b, s = Finset.Ico a b

/-! ## The TTS worker (`tts_worker`)

A task on `tts_queue` is either `None` (the shutdown sentinel) or a dict
`{'type': ..., 'text': ..., 'sync': ...}`.  The worker owns a count of
`started-word` callbacks currently connected to the engine (the program
intends this to be 0 or 1, but a failed `disconnect` leaves the callback
connected).  Per task, engine behaviour is an environment value: the word
boundaries the engine reports during synthesis of this text, whether
`say`/`runAndWait` raises, and whether `disconnect` raises. -/

/-- A speak task dict: `task.get('type')`, `task.get('text', '')`,
`task.get('sync', False)`. -/
structure Cmd where
  ttype : String
  text : List Char
  sync : Bool
deriving DecidableEq

/-- An item on `tts_queue`: `none` is the shutdown sentinel. -/
abbrev Inbound := Option Cmd

/-- Engine behaviour while the worker handles one task. -/
structure SpeakEnv where
  boundaries : List (ℤ × ℕ)
  synthRaises : Bool
  disconnectRaises : Bool
deriving DecidableEq

/-- Log of one dequeued task: the task itself, the `('word', ...)` events the
engine pushed onto `gui_queue` while it was being handled, and whether
`task_done` was reached for it. -/
structure Step where
  task : Inbound
  emitted : List (ℤ × ℕ)
  completed : Bool
deriving DecidableEq

/-- How a worker run over a finite queue segment ends: still blocked waiting
for the next task, terminated via the sentinel, or dead from an unhandled
exception raised by `say`/`runAndWait`. -/
inductive RunEnd where
  | waiting
  | terminated
  | crashed
deriving DecidableEq

/-- The engine fires each boundary once per connected callback; every firing
of `on_word` puts one `('word', location, length)` event on `gui_queue`. -/
def deliver (c : ℕ) (bs : List (ℤ × ℕ)) : List (ℤ × ℕ) :=
  bs.flatMap fun b => List.replicate c b

/-- The worker loop of `tts_worker`, run over a finite segment of the inbound
queue, starting with `c` callbacks connected.  Returns the per-task log, the
final connected-callback count, and how the run ended.

Mirrors the source: on `None`, call `task_done` and break; on a `'speak'`
task with `sync=True`, connect `on_word`, synthesize (events are delivered to
every connected callback; an exception here kills the thread with `task_done`
never reached), then try to disconnect, swallowing a `disconnect` failure
(which leaves the callback connected); with `sync=False`, synthesize with
whatever callbacks happen to be connected; any other task type falls through
to `task_done`. -/
def runW (c : ℕ) : List (Inbound × SpeakEnv) → List Step × ℕ × RunEnd
  | [] => ([], c, RunEnd.waiting)
  | (none, _) :: _ => ([⟨none, [], true⟩], c, RunEnd.terminated)
  | (some cmd, env) :: rest =>
    if cmd.ttype = "speak" then
      if cmd.sync then
        let c1 := c + 1
        let ev := deliver c1 env.boundaries
        if env.synthRaises then ([⟨some cmd, ev, false⟩], c1, RunEnd.crashed)
        else
          let c2 := if env.disconnectRaises then c1 else c1 - 1
          let r := runW c2 rest
          (⟨some cmd, ev, true⟩ :: r.1, r.2)
      else
        let ev := deliver c env.boundaries
        if env.synthRaises then ([⟨some cmd, ev, false⟩], c, RunEnd.crashed)
        else
          let r := runW c rest
          (⟨some cmd, ev, true⟩ :: r.1, r.2)
    else
      let r := runW c rest
      (⟨some cmd, [], true⟩ :: r.1, r.2)

/-- Number of `task_done` calls in a run (the counter `queue.join` watches). -/
def doneCount (steps : List Step) : ℕ :=
  (steps.filter fun s => s.completed).length

/-- All `gui_queue` events of a run, in the order they were produced. -/
def emittedAll (steps : List Step) : List (ℤ × ℕ) :=
  (steps.map Step.emitted).flatten

/-- Worker phases as named by the specification. -/
inductive WStatus where
  | idle
  | speaking (withEvents : Bool)
  | terminated
deriving DecidableEq

/-- Phases the worker passes through while handling one dequeued task. -/
def stepStatuses (s : Step) : List WStatus :=
  match s.task with
  | none => [WStatus.terminated]
  | some cmd =>
    if cmd.ttype = "speak" then
      if s.completed then [WStatus.speaking cmd.sync, WStatus.idle]
      else [WStatus.speaking cmd.sync]
    else []

/-- The phase trace of a worker run: the worker starts idle, then passes
through the phases of each task it dequeues. -/
def statusTrace (steps : List Step) : List WStatus :=
  WStatus.idle :: (steps.map stepStatuses).flatten

/-- The transitions the specification's state machine admits. -/
def admits : WStatus → WStatus → Prop
  | WStatus.idle, WStatus.speaking _ => True
  | WStatus.speaking _, WStatus.idle => True
  | WStatus.idle, WStatus.terminated => True
  | _, _ => False

/-! ## Presentation-layer actions -/

/-- `enqueue_speak(text, sync)`: put a speak dict at the tail of `tts_queue`. -/
def enqueueSpeak (q : List Inbound) (text : List Char) (sync : Bool) : List Inbound :=
  q ++ [some ⟨"speak", text, sync⟩]

/-- `start_reading()`: snapshot the widget content (`text_area.get("1.0",
tk.END)`, which is the text plus Tk's trailing newline), `rstrip` it, bail
out if the result strips to nothing, otherwise record it as
`latest_text_for_tts` and enqueue a synced speak task.  Takes the raw widget
content, the current queue and the current `latest_text_for_tts`; returns the
new queue and the new `latest_text_for_tts`. -/
def startReading (raw : List Char) (q : List Inbound) (latest : Option (List Char)) :
    List Inbound × Option (List Char) :=
  let content := pyRstrip raw
  if pyStrip content = [] then (q, latest)
  else (enqueueSpeak q content true, some content)

/-- `on_closing()` before `tts_queue.join()`: put the `None` sentinel at the
tail of the inbound queue (environments travel with tasks in the model; the
sentinel's is irrelevant). -/
def onClosing (q : List (Inbound × SpeakEnv)) : List (Inbound × SpeakEnv) :=
  q ++ [(none, ⟨[], false, false⟩)]

/-- A speak task with `sync=False` (no word events requested). -/
def isNoEventSpeak : Inbound → Bool
  | some cmd => cmd.ttype = "speak" && cmd.sync = false
  | none => false

/-- A speak task with `sync=True` (word events requested). -/
def isSyncSpeak : Inbound → Bool
  | some cmd => cmd.ttype = "speak" && cmd.sync
  | none => false

/-- Number of tasks in a queue segment that connect the callback and then
fail to disconnect it, leaving it attached. -/
def leakCount (tasks : List (Inbound × SpeakEnv)) : ℕ :=
  (tasks.filter fun p => isSyncSpeak p.1 && p.2.disconnectRaises).length

/-! ## Concrete instances used in closed checks -/

/-- Widget holding `"ab\n"` with the first character highlighted. -/
def wAB : TextWidget := ⟨['a', 'b', '\n'], Finset.Ico 0 1, 0⟩

/-- Widget holding `"hello world\n"` with `"hello"` highlighted. -/
def wHello : TextWidget :=
  ⟨['h', 'e', 'l', 'l', 'o', ' ', 'w', 'o', 'r', 'l', 'd', '\n'], Finset.Ico 0 5, 0⟩

/-- A synced read whose engine `disconnect` fails, followed by a plain
`sync=False` speak of a text with one word boundary. -/
def leakTasks : List (Inbound × SpeakEnv) :=
  [(some ⟨"speak", ['h', 'i'], true⟩, ⟨[(0, 2)], false, true⟩),
   (some ⟨"speak", ['y', 'o'], false⟩, ⟨[(0, 2)], false, false⟩)]

/-- A synced read and a plain speak, both with well-behaved engine calls. -/
def okTasks : List (Inbound × SpeakEnv) :=
  [(some ⟨"speak", ['h', 'i'], true⟩, ⟨[(0, 2)], false, false⟩),
   (some ⟨"speak", ['y', 'o'], false⟩, ⟨[(0, 2)], false, false⟩)]

/-- A synced read during which `say`/`runAndWait` raises. -/
def crashTasks : List (Inbound × SpeakEnv) :=
  [(some ⟨"speak", ['h', 'i'], true⟩, ⟨[(0, 2)], true, false⟩)]

/-- A speak task, then the shutdown sentinel, then a task enqueued too late. -/
def shutdownTasks : List (Inbound × SpeakEnv) :=
  [(some ⟨"speak", ['h', 'i'], false⟩, ⟨[], false, false⟩),
   (none, ⟨[], false, false⟩),
   (some ⟨"speak", ['y', 'o'], false⟩, ⟨[], false, false⟩)]

/-! ## Supporting lemmas -/

theorem dropWhile_head_not (p : Char → Bool) :
    ∀ (l : List Char) (x : Char) (t : List Char), l.dropWhile p = x :: t → p x = false := by
  intro l
  induction l with
  | nil => intro x t h; simp at h
  | cons a l ih =>
    intro x t h
    by_cases ha : p a
    · rw [List.dropWhile_cons, if_pos ha] at h
      exact ih x t h
    · rw [List.dropWhile_cons, if_neg ha] at h
      cases h
      simpa using ha

theorem pyRstrip_eq_nil_iff (l : List Char) :
    pyRstrip l = [] ↔ l.all pyIsSpace = true := by
  simp [pyRstrip, List.reverse_eq_nil_iff, List.dropWhile_eq_nil_iff, List.all_eq_true]

theorem pyRstrip_all_space (l : List Char)
    (h : (pyRstrip l).all pyIsSpace = true) : pyRstrip l = [] := by
  rcases hd : l.reverse.dropWhile pyIsSpace with _ | ⟨x, t⟩
  · simp [pyRstrip, hd]
  · exfalso
    have hx : pyIsSpace x = false := dropWhile_head_not pyIsSpace l.reverse x t hd
    have hmem : x ∈ pyRstrip l := by simp [pyRstrip, hd]
    have := List.all_eq_true.mp h x hmem
    rw [hx] at this
    exact Bool.false_ne_true this

theorem pyStrip_eq_nil_iff (l : List Char) :
    pyStrip l = [] ↔ l.all pyIsSpace = true := by
  constructor
  · intro h
    have h1 : ∀ x ∈ l.dropWhile pyIsSpace, pyIsSpace x := by
      intro x hx
      have h2 : ∀ y ∈ (l.dropWhile pyIsSpace).reverse, pyIsSpace y := by
        apply List.dropWhile_eq_nil_iff.mp
        simpa [pyStrip, List.reverse_eq_nil_iff] using h
      exact h2 x (by simpa using hx)
    rw [List.all_eq_true]
    intro x hx
    rw [← List.takeWhile_append_dropWhile (p := pyIsSpace) (l := l)] at hx
    rcases List.mem_append.mp hx with h2 | h2
    · exact List.mem_takeWhile_imp h2
    · exact h1 x h2
  · intro h
    have h1 : l.dropWhile pyIsSpace = [] :=
      List.dropWhile_eq_nil_iff.mpr fun x hx => List.all_eq_true.mp h x hx
    simp [pyStrip, h1]

/-- The guard `if not content.strip()` in `start_reading` fires exactly when
the raw widget text is all whitespace. -/
theorem startReading_guard (raw : List Char) :
    pyStrip (pyRstrip raw) = [] ↔ raw.all pyIsSpace = true := by
  constructor
  · intro h
    exact (pyRstrip_eq_nil_iff raw).mp
      (pyRstrip_all_space raw ((pyStrip_eq_nil_iff _).mp h))
  · intro h
    rw [(pyRstrip_eq_nil_iff raw).mpr h]
    simp [pyStrip]

theorem pyRstrip_append_space (l : List Char) (c : Char) (h : pyIsSpace c = true) :
    pyRstrip (l ++ [c]) = pyRstrip l := by
  simp [pyRstrip, List.dropWhile_cons, h]

theorem processWord_preserves_span (w : TextWidget) (location : ℤ) (length : ℕ)
    (h : isSpanSet w.highlight) : isSpanSet (processWord w location length).highlight := by
  unfold processWord
  by_cases hl : location < 0
  · simpa [hl] using h
  · refine ⟨resolveChars w location.toNat,
      resolveChars w (resolveChars w location.toNat + length), ?_⟩
    simp [hl, seeIndex, tagAdd, tagRemoveAll]

theorem foldl_preserves_span (evs : List (ℤ × ℕ)) :
    ∀ w : TextWidget, isSpanSet w.highlight →
      isSpanSet ((evs.foldl (fun x e => processWord x e.1 e.2) w).highlight) := by
  induction evs with
  | nil => intro w h; simpa using h
  | cons e rest ih => intro w h; exact ih _ (processWord_preserves_span w e.1 e.2 h)

theorem drainAll_order (evs : List (ℤ × ℕ)) : ∀ w, (drainAll w evs).2 = evs := by
  induction evs with
  | nil => intro w; simp [drainAll]
  | cons e rest ih => intro w; simp [drainAll, ih]

theorem drainAll_fst (evs : List (ℤ × ℕ)) :
    ∀ w, (drainAll w evs).1 = evs.foldl (fun x e => processWord x e.1 e.2) w := by
  induction evs with
  | nil => intro w; simp [drainAll]
  | cons e rest ih => intro w; simp [drainAll, ih]

theorem deliver_zero (bs : List (ℤ × ℕ)) : deliver 0 bs = [] := by
  induction bs with
  | nil => simp [deliver]
  | cons b t ih => simp [deliver] at ih ⊢

/-- A worker run over a queue segment with no sentinel and no synthesis
exception handles every task in order, reaches `task_done` for each, ends
blocked waiting, and the callbacks left connected are the initial ones plus
one per failed disconnect. -/
theorem runW_complete (tasks : List (Inbound × SpeakEnv)) :
    ∀ c : ℕ, (∀ p ∈ tasks, p.1 ≠ none) → (∀ p ∈ tasks, p.2.synthRaises = false) →
      (runW c tasks).1.map Step.task = tasks.map Prod.fst ∧
      (∀ s ∈ (runW c tasks).1, s.completed = true) ∧
      (runW c tasks).2.1 = c + leakCount tasks ∧
      (runW c tasks).2.2 = RunEnd.waiting := by
  induction tasks with
  | nil => intro c _ _; simp [runW, leakCount]
  | cons hd tl ih =>
    intro c hs hc
    obtain ⟨task, env⟩ := hd
    cases task with
    | none => exact absurd rfl (hs (none, env) (List.mem_cons_self _ _))
    | some cmd =>
      have hcr : env.synthRaises = false := hc _ (List.mem_cons_self _ _)
      have hs' : ∀ p ∈ tl, p.1 ≠ none := fun p hp => hs p (List.mem_cons_of_mem _ hp)
      have hc' : ∀ p ∈ tl, p.2.synthRaises = false := fun p hp =>
        hc p (List.mem_cons_of_mem _ hp)
      by_cases ht : cmd.ttype = "speak"
      · by_cases hsy : cmd.sync
        · by_cases hd2 : env.disconnectRaises
          · obtain ⟨ih1, ih2, ih3, ih4⟩ := ih (c + 1) hs' hc'
            refine ⟨?_, ?_, ?_, ?_⟩ <;>
              simp_all [runW, ht, hsy, hcr, hd2, leakCount, isSyncSpeak, List.filter_cons]
            omega
          · obtain ⟨ih1, ih2, ih3, ih4⟩ := ih c hs' hc'
            refine ⟨?_, ?_, ?_, ?_⟩ <;>
              simp_all [runW, ht, hsy, hcr, hd2, leakCount, isSyncSpeak, List.filter_cons]
        · obtain ⟨ih1, ih2, ih3, ih4⟩ := ih c hs' hc'
          refine ⟨?_, ?_, ?_, ?_⟩ <;>
            simp_all [runW, ht, hsy, hcr, leakCount, isSyncSpeak, List.filter_cons]
      · obtain ⟨ih1, ih2, ih3, ih4⟩ := ih c hs' hc'
        refine ⟨?_, ?_, ?_, ?_⟩ <;>
          simp_all [runW, ht, leakCount, isSyncSpeak, List.filter_cons]

/-- A worker run decomposes along an append as long as the first segment
leaves the worker alive and waiting. -/
theorem runW_append (ys : List (Inbound × SpeakEnv)) :
    ∀ (xs : List (Inbound × SpeakEnv)) (c : ℕ), (runW c xs).2.2 = RunEnd.waiting →
      runW c (xs ++ ys) =
        ((runW c xs).1 ++ (runW (runW c xs).2.1 ys).1, (runW (runW c xs).2.1 ys).2) := by
  intro xs
  induction xs with
  | nil => intro c _; simp [runW]
  | cons hd tl ih =>
    intro c hw
    obtain ⟨task, env⟩ := hd
    cases task with
    | none => simp [runW] at hw
    | some cmd =>
      by_cases ht : cmd.ttype = "speak"
      · by_cases hsy : cmd.sync
        · by_cases hcr : env.synthRaises
          · simp [runW, ht, hsy, hcr] at hw
          · by_cases hd2 : env.disconnectRaises
            · have hw' : (runW (c + 1) tl).2.2 = RunEnd.waiting := by
                simpa [runW, ht, hsy, hcr, hd2] using hw
              simp [runW, ht, hsy, hcr, hd2, ih (c + 1) hw']
            · have hw' : (runW c tl).2.2 = RunEnd.waiting := by
                simpa [runW, ht, hsy, hcr, hd2] using hw
              simp [runW, ht, hsy, hcr, hd2, ih c hw']
        · by_cases hcr : env.synthRaises
          · simp [runW, ht, hsy, hcr] at hw
          · have hw' : (runW c tl).2.2 = RunEnd.waiting := by
              simpa [runW, ht, hsy, hcr] using hw
            simp [runW, ht, hsy, hcr, ih c hw']
      · have hw' : (runW c tl).2.2 = RunEnd.waiting := by
          simpa [runW, ht] using hw
        simp [runW, ht, ih c hw']

/-- Decompose `pre ++ s :: post = [x]`. -/
theorem append_cons_eq_singleton {α : Type} (pre post : List α) (s x : α)
    (h : pre ++ s :: post = [x]) : pre = [] ∧ s = x ∧ post = [] := by
  cases pre with
  | nil => simp at h; exact ⟨rfl, h.1, h.2⟩
  | cons a t =>
    have := congrArg List.length h
    simp at this

/-- Decompose `pre ++ s :: post = x :: rest`. -/
theorem append_cons_eq_cons {α : Type} (pre post rest : List α) (s x : α)
    (h : pre ++ s :: post = x :: rest) :
    (s = x ∧ post = rest) ∨ (∃ t, pre = x :: t ∧ t ++ s :: post = rest) := by
  cases pre with
  | nil => simp at h; exact Or.inl ⟨h.1, h.2⟩
  | cons a t =>
    simp at h
    exact Or.inr ⟨t, by rw [h.1], h.2⟩

/-- Once the worker dequeues the sentinel it breaks out of its loop: a
sentinel step is always the last step of a run. -/
theorem runW_sentinel_last (tasks : List (Inbound × SpeakEnv)) :
    ∀ (c : ℕ) (pre : List Step) (s : Step) (post : List Step),
      (runW c tasks).1 = pre ++ s :: post → s.task = none → post = [] := by
  induction tasks with
  | nil => intro c pre s post h _; simp [runW] at h
  | cons hd tl ih =>
    intro c pre s post h hn
    obtain ⟨task, env⟩ := hd
    cases task with
    | none =>
      have h1 : pre ++ s :: post = [(⟨none, [], true⟩ : Step)] := by
        rw [← h]; simp [runW]
      exact (append_cons_eq_singleton pre post s _ h1).2.2
    | some cmd =>
      by_cases ht : cmd.ttype = "speak"
      · by_cases hsy : cmd.sync
        · by_cases hcr : env.synthRaises
          · have h1 : pre ++ s :: post =
                [(⟨some cmd, deliver (c + 1) env.boundaries, false⟩ : Step)] := by
              rw [← h]; simp [runW, ht, hsy, hcr]
            obtain ⟨-, hs1, hp⟩ := append_cons_eq_singleton pre post s _ h1
            exact hp
          · by_cases hd2 : env.disconnectRaises
            · have h1 : pre ++ s :: post =
                  (⟨some cmd, deliver (c + 1) env.boundaries, true⟩ : Step) ::
                    (runW (c + 1) tl).1 := by
                rw [← h]; simp [runW, ht, hsy, hcr, hd2]
              rcases append_cons_eq_cons pre post _ s _ h1 with ⟨hs1, -⟩ | ⟨t, -, h2⟩
              · rw [hs1] at hn; simp at hn
              · exact ih (c + 1) t s post h2.symm hn
            · have h1 : pre ++ s :: post =
                  (⟨some cmd, deliver (c + 1) env.boundaries, true⟩ : Step) ::
                    (runW c tl).1 := by
                rw [← h]; simp [runW, ht, hsy, hcr, hd2]
              rcases append_cons_eq_cons pre post _ s _ h1 with ⟨hs1, -⟩ | ⟨t, -, h2⟩
              · rw [hs1] at hn; simp at hn
              · exact ih c t s post h2.symm hn
        · by_cases hcr : env.synthRaises
          · have h1 : pre ++ s :: post =
                [(⟨some cmd, deliver c env.boundaries, false⟩ : Step)] := by
              rw [← h]; simp [runW, ht, hsy, hcr]
            obtain ⟨-, hs1, hp⟩ := append_cons_eq_singleton pre post s _ h1
            exact hp
          · have h1 : pre ++ s :: post =
                (⟨some cmd, deliver c env.boundaries, true⟩ : Step) ::
                  (runW c tl).1 := by
              rw [← h]; simp [runW, ht, hsy, hcr]
            rcases append_cons_eq_cons pre post _ s _ h1 with ⟨hs1, -⟩ | ⟨t, -, h2⟩
            · rw [hs1] at hn; simp at hn
            · exact ih c t s post h2.symm hn
      · have h1 : pre ++ s :: post =
            (⟨some cmd, [], true⟩ : Step) :: (runW c tl).1 := by
          rw [← h]; simp [runW, ht]
        rcases append_cons_eq_cons pre post _ s _ h1 with ⟨hs1, -⟩ | ⟨t, -, h2⟩
        · rw [hs1] at hn; simp at hn
        · exact ih c t s post h2.symm hn

theorem chain_idle_term : List.Chain' admits [WStatus.idle, WStatus.terminated] := by
  rw [List.chain'_cons]
  exact ⟨trivial, List.chain'_singleton _⟩

theorem chain_idle_speak (b : Bool) :
    List.Chain' admits [WStatus.idle, WStatus.speaking b] := by
  rw [List.chain'_cons]
  exact ⟨trivial, List.chain'_singleton _⟩

theorem chain_shift (b : Bool) (l : List WStatus)
    (h : List.Chain' admits (WStatus.idle :: l)) :
    List.Chain' admits (WStatus.idle :: WStatus.speaking b :: WStatus.idle :: l) := by
  rw [List.chain'_cons, List.chain'_cons]
  exact ⟨trivial, trivial, h⟩

/-- Every phase transition of a worker run is one the specification's state
machine admits. -/
theorem runW_chain (tasks : List (Inbound × SpeakEnv)) :
    ∀ c : ℕ, List.Chain' admits (statusTrace (runW c tasks).1) := by
  induction tasks with
  | nil => intro c; simp [runW, statusTrace]
  | cons hd tl ih =>
    intro c
    obtain ⟨task, env⟩ := hd
    cases task with
    | none =>
      have hshape : statusTrace (runW c ((none, env) :: tl)).1 =
          [WStatus.idle, WStatus.terminated] := by
        simp [runW, statusTrace, stepStatuses]
      rw [hshape]
      exact chain_idle_term
    | some cmd =>
      by_cases ht : cmd.ttype = "speak"
      · by_cases hsy : cmd.sync
        · by_cases hcr : env.synthRaises
          · have hshape : statusTrace (runW c ((some cmd, env) :: tl)).1 =
                [WStatus.idle, WStatus.speaking cmd.sync] := by
              simp [runW, ht, hsy, hcr, statusTrace, stepStatuses]
            rw [hshape]
            exact chain_idle_speak cmd.sync
          · by_cases hd2 : env.disconnectRaises
            · have hshape : statusTrace (runW c ((some cmd, env) :: tl)).1 =
                  WStatus.idle :: WStatus.speaking cmd.sync :: statusTrace (runW (c + 1) tl).1 := by
                simp [runW, ht, hsy, hcr, hd2, statusTrace, stepStatuses]
              rw [hshape]
              exact chain_shift cmd.sync _ (ih (c + 1))
            · have hshape : statusTrace (runW c ((some cmd, env) :: tl)).1 =
                  WStatus.idle :: WStatus.speaking cmd.sync :: statusTrace (runW c tl).1 := by
                simp [runW, ht, hsy, hcr, hd2, statusTrace, stepStatuses]
              rw [hshape]
              exact chain_shift cmd.sync _ (ih c)
        · by_cases hcr : env.synthRaises
          · have hshape : statusTrace (runW c ((some cmd, env) :: tl)).1 =
                [WStatus.idle, WStatus.speaking cmd.sync] := by
              simp [runW, ht, hsy, hcr, statusTrace, stepStatuses]
            rw [hshape]
            exact chain_idle_speak cmd.sync
          · have hshape : statusTrace (runW c ((some cmd, env) :: tl)).1 =
                WStatus.idle :: WStatus.speaking cmd.sync :: statusTrace (runW c tl).1 := by
              simp [runW, ht, hsy, hcr, statusTrace, stepStatuses]
            rw [hshape]
            exact chain_shift cmd.sync _ (ih c)
      · have hshape : statusTrace (runW c ((some cmd, env) :: tl)).1 =
            statusTrace (runW c tl).1 := by
          simp [runW, ht, statusTrace, stepStatuses]
        rw [hshape]
        exact ih c

/-- When every disconnect succeeds, the worker starting with no connected
callbacks emits nothing while handling a `sync=False` speak task. -/
theorem runW_noevent_speak_silent (tasks : List (Inbound × SpeakEnv)) :
    (∀ p ∈ tasks, p.2.disconnectRaises = false) →
      ∀ s ∈ (runW 0 tasks).1, isNoEventSpeak s.task = true → s.emitted = [] := by
  induction tasks with
  | nil => intro _ s hmem; simp [runW] at hmem
  | cons hd tl ih =>
    intro hdisc s hmem hne
    obtain ⟨task, env⟩ := hd
    have hdisc' : ∀ p ∈ tl, p.2.disconnectRaises = false := fun p hp =>
      hdisc p (List.mem_cons_of_mem _ hp)
    cases task with
    | none =>
      simp [runW] at hmem
      rw [hmem] at hne
      simp [isNoEventSpeak] at hne
    | some cmd =>
      by_cases ht : cmd.ttype = "speak"
      · by_cases hsy : cmd.sync
        · by_cases hcr : env.synthRaises
          · simp [runW, ht, hsy, hcr] at hmem
            rw [hmem] at hne
            simp [isNoEventSpeak, hsy] at hne
          · have hd2 : env.disconnectRaises = false := hdisc _ (List.mem_cons_self _ _)
            simp only [runW, ht, hsy, hcr, hd2] at hmem
            simp at hmem
            rcases hmem with h1 | h1
            · rw [h1] at hne
              simp [isNoEventSpeak, hsy] at hne
            · exact ih hdisc' s h1 hne
        · by_cases hcr : env.synthRaises
          · simp [runW, ht, hsy, hcr] at hmem
            rw [hmem]
            exact deliver_zero env.boundaries
          · simp [runW, ht, hsy, hcr] at hmem
            rcases hmem with h1 | h1
            · rw [h1]
              exact deliver_zero env.boundaries
            · exact ih hdisc' s h1 hne
      · simp [runW, ht] at hmem
        rcases hmem with h1 | h1
        · rw [h1]
        · exact ih hdisc' s h1 hne

/-! ## Claim theorems -/

/-- C1, counterexample: the polling loop only skips events with a negative
offset.  On the widget `"ab\n"` (3 characters) carrying a highlight on `[0,1)`,
the out-of-bounds event `(offset 1, length 5)` (1 + 5 > 3) is not ignored: Tk
clamps the indices, the old highlight is removed, and a clamped highlight
`[1,3)` is applied — the display state changes. -/
theorem c1_counterexample :
    wAB.highlight = Finset.Ico 0 1 ∧ wAB.content.length = 3 ∧
    (processWord wAB 1 5).highlight = Finset.Ico 1 3 ∧
    (processWord wAB 1 5).highlight ≠ wAB.highlight := by decide

/-- C1 (amended): an event with `offset < 0` is skipped and the display is
unchanged; an event with `offset ≥ 0` whose end falls outside the text is
*not* skipped — no exception is raised, the previous highlight is cleared,
a highlight clamped to the text bounds (`[min offset len, len)`, empty when
`offset ≥ len`) is applied, and the view scrolls to the clamped start. -/
theorem c1_oob_clamped (w : TextWidget) (location : ℤ) (length : ℕ)
    (h : location < 0 ∨ w.content.length < location.toNat + length) :
    (location < 0 → processWord w location length = w) ∧
    (0 ≤ location →
      processWord w location length =
        ⟨w.content, Finset.Ico (min location.toNat w.content.length) w.content.length,
          min location.toNat w.content.length⟩) := by
  constructor
  · intro hl
    simp [processWord, hl]
  · intro hl
    have hl' : ¬ location < 0 := not_lt.mpr hl
    have hlen : w.content.length < location.toNat + length := by
      rcases h with h | h
      · exact absurd h hl'
      · exact h
    have he : min (min location.toNat w.content.length + length) w.content.length =
        w.content.length := by omega
    simp only [processWord, hl', ite_false, if_neg, resolveChars, seeIndex, tagAdd,
      tagRemoveAll, he]
    simp

/-- Closed instance of `c1_oob_clamped` at the event `(5, 2)` on `"ab\n"`. -/
theorem c1_oob_clamped_witness :
    ((5 : ℤ) < 0 → processWord wAB 5 2 = wAB) ∧
    ((0 : ℤ) ≤ 5 →
      processWord wAB 5 2 =
        ⟨wAB.content, Finset.Ico (min (5 : ℤ).toNat wAB.content.length) wAB.content.length,
          min (5 : ℤ).toNat wAB.content.length⟩) :=
  c1_oob_clamped wAB 5 2 (Or.inr (by decide))

/-- C2: for an in-bounds word event (`0 ≤ offset`, `offset + length ≤
len(text)`), the polling loop replaces whatever was highlighted with exactly
the span `[offset, offset + length)` of the unchanged displayed text and
scrolls its start into view. -/
theorem c2_in_bounds_highlight (w : TextWidget) (location : ℤ) (length : ℕ)
    (h0 : 0 ≤ location) (h1 : location.toNat + length ≤ w.content.length) :
    processWord w location length =
      ⟨w.content, Finset.Ico location.toNat (location.toNat + length), location.toNat⟩ := by
  have hl' : ¬ location < 0 := not_lt.mpr h0
  have hs : min location.toNat w.content.length = location.toNat := by omega
  have he : min (location.toNat + length) w.content.length =
      location.toNat + length := by omega
  simp only [processWord, hl', ite_false, if_neg, resolveChars, seeIndex, tagAdd,
    tagRemoveAll, hs, he]
  simp

/-- Closed instance of `c2_in_bounds_highlight`: on `"hello world\n"` with
`"hello"` highlighted, the event `(6, 5)` leaves exactly `"world"`
highlighted. -/
theorem c2_in_bounds_highlight_witness :
    processWord wHello 6 5 = ⟨wHello.content, Finset.Ico 6 11, 6⟩ := by
  have h := c2_in_bounds_highlight wHello 6 5 (by decide) (by decide)
  exact h.trans (by decide)

/-- C8: highlight exclusivity is an invariant of the polling loop — starting
from a display whose highlight is a single (possibly empty) contiguous span,
draining any sequence of word events, in- or out-of-bounds, leaves the
highlight a single contiguous span. -/
theorem c8_highlight_exclusive (evs : List (ℤ × ℕ)) (w : TextWidget)
    (h : isSpanSet w.highlight) : isSpanSet ((drainAll w evs).1.highlight) := by
  rw [drainAll_fst]
  exact foldl_preserves_span evs w h

/-- Closed instance of `c8_highlight_exclusive` on a mixed event sequence. -/
theorem c8_highlight_exclusive_witness :
    isSpanSet ((drainAll ⟨['h', 'e', 'l', 'l', 'o', ' ', 'w', 'o', 'r', 'l', 'd', '\n'], ∅, 0⟩
      [(0, 5), (6, 5), (-2, 3), (9, 9)]).1.highlight) :=
  c8_highlight_exclusive [(0, 5), (6, 5), (-2, 3), (9, 9)] _ ⟨0, 0, by simp⟩

/-- C3, counterexample: a worker run in which an earlier synced read's
`disconnect` failed (the callback stays connected) and the next task is a
`sync=False` speak: that task *does* put word events on the GUI queue. -/
theorem c3_counterexample :
    isNoEventSpeak ((runW 0 leakTasks).1.getD 1 ⟨none, [], false⟩).task = true ∧
    ((runW 0 leakTasks).1.getD 1 ⟨none, [], false⟩).emitted ≠ [] := by decide

/-- C3 (amended): a `sync=False` speak task produces no word events provided
every unregister call of the run so far succeeded; it is only a leaked
callback from a failed `disconnect` that can make a `sync=False` read emit. -/
theorem c3_noevents_when_unregister_succeeds (tasks : List (Inbound × SpeakEnv))
    (h : ∀ p ∈ tasks, p.2.disconnectRaises = false) :
    ∀ s ∈ (runW 0 tasks).1, isNoEventSpeak s.task = true → s.emitted = [] :=
  runW_noevent_speak_silent tasks h

/-- Closed instance of `c3_noevents_when_unregister_succeeds`: in a run whose
disconnects succeed, the `sync=False` speak emits nothing. -/
theorem c3_noevents_witness :
    ((runW 0 okTasks).1.getD 1 ⟨none, [], false⟩).emitted = [] := by
  have h := c3_noevents_when_unregister_succeeds okTasks (by decide)
  exact h _ (by decide) (by decide)

/-- C4, counterexample: unregistration is not guaranteed under exceptions.
If `say`/`runAndWait` raises during a synced read, the `disconnect` call is
never reached: the run ends crashed, `task_done` was never called for the
task, and the callback is still connected afterwards. -/
theorem c4_counterexample :
    (runW 0 crashTasks).2.1 = 1 ∧
    (runW 0 crashTasks).2.2 = RunEnd.crashed ∧
    ((runW 0 crashTasks).1.getD 0 ⟨none, [], true⟩).completed = false := by decide

/-- C4 (amended): when synthesis itself never raises, the worker registers the
callback before synthesis and attempts to unregister it afterwards; a failing
unregister is caught and never aborts processing (every task still reaches
`task_done`), but each failed unregister leaves its callback connected, so the
callbacks accumulated by a run are exactly its synced reads whose disconnect
failed.  (If synthesis raises, the unregister is skipped entirely —
see the counterexample.) -/
theorem c4_unregister_attempted_not_guaranteed (tasks : List (Inbound × SpeakEnv))
    (hs : ∀ p ∈ tasks, p.1 ≠ none) (hc : ∀ p ∈ tasks, p.2.synthRaises = false) :
    (∀ s ∈ (runW 0 tasks).1, s.completed = true) ∧
    (runW 0 tasks).2.1 = leakCount tasks := by
  obtain ⟨-, h2, h3, -⟩ := runW_complete tasks 0 hs hc
  refine ⟨h2, ?_⟩
  rw [h3]
  simp

/-- Closed instance of `c4_unregister_attempted_not_guaranteed` on a run with
one failed disconnect: all tasks complete and one callback is left over. -/
theorem c4_unregister_witness :
    ((runW 0 leakTasks).1.getD 0 ⟨none, [], false⟩).completed = true ∧
    (runW 0 leakTasks).2.1 = leakCount leakTasks := by
  have h := c4_unregister_attempted_not_guaranteed leakTasks (by decide) (by decide)
  exact ⟨h.1 _ (by decide), h.2⟩

/-- C5: `start_reading` on an all-whitespace widget text is a no-op — nothing
is enqueued and `latest_text_for_tts` is untouched; on any other text exactly
one synced speak command carrying the recorded snapshot is appended to the
inbound queue. -/
theorem c5_start_reading (raw : List Char) (q : List Inbound)
    (latest : Option (List Char)) :
    (raw.all pyIsSpace = true → startReading raw q latest = (q, latest)) ∧
    (raw.all pyIsSpace = false →
      startReading raw q latest =
        (q ++ [some ⟨"speak", pyRstrip raw, true⟩], some (pyRstrip raw))) := by
  constructor
  · intro h
    have hg : pyStrip (pyRstrip raw) = [] := (startReading_guard raw).mpr h
    simp [startReading, hg]
  · intro h
    have hg : ¬ pyStrip (pyRstrip raw) = [] := by
      intro hc
      have h2 := (startReading_guard raw).mp hc
      rw [h2] at h
      simp at h
    simp [startReading, hg, enqueueSpeak]

/-- Closed instances of `c5_start_reading` on `"␣\n"` and on `"hi\n"`. -/
theorem c5_start_reading_witness :
    startReading [' ', '\n'] [] none = ([], none) ∧
    startReading ['h', 'i', '\n'] [] none =
      ([some ⟨"speak", ['h', 'i'], true⟩], some ['h', 'i']) := by
  constructor
  · exact (c5_start_reading [' ', '\n'] [] none).1 (by decide)
  · exact ((c5_start_reading ['h', 'i', '\n'] [] none).2 (by decide)).trans (by decide)

/-- C10: the snapshot `start_reading` enqueues and records is the widget
content with trailing whitespace removed — in particular the trailing newline
Tk appends is stripped, word-event offsets refer to the rstripped string, and
a whitespace-only text is rejected exactly when nothing is left after
stripping. -/
theorem c10_snapshot_rstripped (base : List Char) (q : List Inbound)
    (latest : Option (List Char)) :
    pyRstrip (base ++ ['\n']) = pyRstrip base ∧
    (base.all pyIsSpace = false →
      startReading (base ++ ['\n']) q latest =
        (q ++ [some ⟨"speak", pyRstrip base, true⟩], some (pyRstrip base))) ∧
    (base.all pyIsSpace = true →
      startReading (base ++ ['\n']) q latest = (q, latest)) := by
  have hnl : pyRstrip (base ++ ['\n']) = pyRstrip base :=
    pyRstrip_append_space base '\n' (by decide)
  have hall : (base ++ ['\n']).all pyIsSpace = base.all pyIsSpace := by
    simp [List.all_append, (by decide : pyIsSpace '\n' = true)]
  refine ⟨hnl, ?_, ?_⟩
  · intro h
    have hg : ¬ pyStrip (pyRstrip (base ++ ['\n'])) = [] := by
      intro hc
      have h2 := (startReading_guard _).mp hc
      rw [hall, h] at h2
      simp at h2
    rw [hnl] at hg
    simp [startReading, hg, enqueueSpeak, hnl]
  · intro h
    have hg : pyStrip (pyRstrip (base ++ ['\n'])) = [] :=
      (startReading_guard _).mpr (by rw [hall, h])
    simp [startReading, hg]

/-- Closed instance of `c10_snapshot_rstripped` on the widget text
`"hi ␣\n"`: the enqueued snapshot is `"hi"`. -/
theorem c10_snapshot_witness :
    pyRstrip (['h', 'i', ' '] ++ ['\n']) = pyRstrip ['h', 'i', ' '] ∧
    startReading (['h', 'i', ' '] ++ ['\n']) [] none =
      ([some ⟨"speak", ['h', 'i'], true⟩], some ['h', 'i']) := by
  have h := c10_snapshot_rstripped ['h', 'i', ' '] [] none
  exact ⟨h.1, (h.2.1 (by decide)).trans (by decide)⟩

/-- C6: the close handler appends exactly one shutdown sentinel, and in a run
without synthesis exceptions the worker dequeues every previously enqueued
command in order, then the sentinel, and terminates; the `task_done` count
`tts_queue.join()` waits for reaches the number of enqueued items exactly at
that point and at no earlier prefix of the run — so `on_closing` returns (and
`root.destroy()` runs) only after the full drain. -/
theorem c6_close_drains (cmds : List (Inbound × SpeakEnv))
    (hs : ∀ p ∈ cmds, p.1 ≠ none) (hc : ∀ p ∈ cmds, p.2.synthRaises = false) :
    ((onClosing cmds).map Prod.fst).count none = 1 ∧
    (runW 0 (onClosing cmds)).1.map Step.task = cmds.map Prod.fst ++ [none] ∧
    (runW 0 (onClosing cmds)).2.2 = RunEnd.terminated ∧
    doneCount (runW 0 (onClosing cmds)).1 = (onClosing cmds).length ∧
    (∀ k, k ≤ cmds.length → doneCount (runW 0 ((onClosing cmds).take k)).1 = k) := by
  obtain ⟨hA1, hA2, -, hA4⟩ := runW_complete cmds 0 hs hc
  have hdec := runW_append [(none, ⟨[], false, false⟩)] cmds 0 hA4
  have hlen : (runW 0 cmds).1.length = cmds.length := by
    have := congrArg List.length hA1
    simpa using this
  have hfull : doneCount (runW 0 cmds).1 = cmds.length := by
    rw [doneCount, List.filter_eq_self.mpr (fun s hsm => hA2 s hsm), hlen]
  refine ⟨?_, ?_, ?_, ?_, ?_⟩
  · have hnone : none ∉ cmds.map Prod.fst := by
      intro hmem
      obtain ⟨p, hp, hfst⟩ := List.mem_map.mp hmem
      exact hs p hp hfst
    simp [onClosing, List.count_append, List.count_eq_zero.mpr hnone]
  · rw [onClosing, hdec]
    simp [runW, hA1]
  · rw [onClosing, hdec]
    simp [runW]
  · rw [onClosing, hdec]
    simp only [doneCount, List.filter_append, List.length_append]
    rw [← doneCount, ← doneCount, hfull]
    simp [runW, doneCount, onClosing]
  · intro k hk
    have htake : (onClosing cmds).take k = cmds.take k := by
      rw [onClosing]
      exact List.take_append_of_le_length hk
    rw [htake]
    have hs' : ∀ p ∈ cmds.take k, p.1 ≠ none := fun p hp =>
      hs p (List.take_subset k cmds hp)
    have hc' : ∀ p ∈ cmds.take k, p.2.synthRaises = false := fun p hp =>
      hc p (List.take_subset k cmds hp)
    obtain ⟨hB1, hB2, -, -⟩ := runW_complete (cmds.take k) 0 hs' hc'
    have hlenk : (runW 0 (cmds.take k)).1.length = k := by
      have := congrArg List.length hB1
      simpa [min_eq_left hk] using this
    rw [doneCount, List.filter_eq_self.mpr (fun s hsm => hB2 s hsm), hlenk]

/-- Closed instance of `c6_close_drains` on two well-behaved speak tasks. -/
theorem c6_close_drains_witness :
    ((onClosing okTasks).map Prod.fst).count none = 1 ∧
    doneCount (runW 0 (onClosing okTasks)).1 = (onClosing okTasks).length ∧
    doneCount (runW 0 ((onClosing okTasks).take 1)).1 = 1 := by
  have h := c6_close_drains okTasks (by decide) (by decide)
  exact ⟨h.1, h.2.2.2.1, h.2.2.2.2 1 (by decide)⟩

/-- C7: every adjacent phase pair of any worker run is one of the admitted
transitions `Idle → Speaking(b)`, `Speaking(b) → Idle`, `Idle → Terminated`;
and once the sentinel is dequeued the loop breaks, so no step follows a
sentinel step — Terminated is never exited. -/
theorem c7_state_machine (c : ℕ) (tasks : List (Inbound × SpeakEnv)) :
    List.Chain' admits (statusTrace (runW c tasks).1) ∧
    (∀ pre s post, (runW c tasks).1 = pre ++ s :: post → s.task = none → post = []) :=
  ⟨runW_chain tasks c, fun pre s post h hn => runW_sentinel_last tasks c pre s post h hn⟩

/-- Closed instance of `c7_state_machine`: on a queue holding a speak task,
the sentinel, and a late task, the phase trace is admitted and the sentinel
step is the last step of the run. -/
theorem c7_state_machine_witness :
    List.Chain' admits (statusTrace (runW 0 shutdownTasks).1) ∧
    ([] : List Step) = [] := by
  have h := c7_state_machine 0 shutdownTasks
  exact ⟨h.1, h.2 [⟨some ⟨"speak", ['h', 'i'], false⟩, [], true⟩] ⟨none, [], true⟩ []
    (by decide) (by decide)⟩

/-- C9: both queues are FIFO.  In a run without crashes the worker dequeues
and handles the inbound commands exactly in submission order; splitting the
submissions anywhere shows a command submitted while earlier ones are pending
is handled strictly after all of them (no preemption); and the polling loop
consumes the outbound word events in exactly the order the worker produced
them. -/
theorem c9_fifo (cmds : List (Inbound × SpeakEnv)) (w : TextWidget)
    (hs : ∀ p ∈ cmds, p.1 ≠ none) (hc : ∀ p ∈ cmds, p.2.synthRaises = false) :
    (runW 0 cmds).1.map Step.task = cmds.map Prod.fst ∧
    (∀ xs ys, cmds = xs ++ ys →
      (runW 0 cmds).1 = (runW 0 xs).1 ++ (runW (runW 0 xs).2.1 ys).1) ∧
    (drainAll w (emittedAll (runW 0 cmds).1)).2 = emittedAll (runW 0 cmds).1 := by
  refine ⟨(runW_complete cmds 0 hs hc).1, ?_, drainAll_order _ _⟩
  intro xs ys hxy
  subst hxy
  have hsx : ∀ p ∈ xs, p.1 ≠ none := fun p hp => hs p (List.mem_append_left _ hp)
  have hcx : ∀ p ∈ xs, p.2.synthRaises = false := fun p hp =>
    hc p (List.mem_append_left _ hp)
  have hw := (runW_complete xs 0 hsx hcx).2.2.2
  rw [runW_append ys xs 0 hw]

/-- Closed instance of `c9_fifo` on two well-behaved speak tasks. -/
theorem c9_fifo_witness :
    (runW 0 okTasks).1.map Step.task = okTasks.map Prod.fst ∧
    (drainAll wHello (emittedAll (runW 0 okTasks).1)).2 =
      emittedAll (runW 0 okTasks).1 := by
  have h := c9_fifo okTasks wHello (by decide) (by decide)
  exact ⟨h.1, h.2.2⟩

end DyslexicReader
